import Mathlib

/-!
# Verification of the Hisaab.AI Spending Analytics Engine

Shallow embedding of the five analytic tools of the repository
(`anomolytool.py`, `RecurringExpenseTool.py`, `TrendTool.py`,
`CoreAggregatorTool.py`, `TimeSlotTool.py`) and proofs of the
testable properties stated for them.

Monetary amounts are modelled as exact rationals (`ℚ`); Python's
`dict` (insertion ordered, unique keys, first-match lookup) is
modelled as an association list maintained by `alistUpsert`;
`datetime` values are modelled by the `DateTime` record with the
`strftime`/`isoformat` projections the tools actually use.
The Firestore streams are modelled as the list of receipts the
store adapter supplies, in stream order.
-/

/-- First-match lookup in an association list, the semantics of
Python `dict.get`. -/
def alistFind {κ α : Type} [DecidableEq κ] (k : κ) : List (κ × α) → Option α
  | [] => none
  | p :: rest => if p.1 = k then some p.2 else alistFind k rest

/-- In-place update of the entry at key `k` (keeping its position), or
append of a fresh entry at the end: the semantics of
`d[k] = f(d.get(k))` on a Python `dict` / `defaultdict`. -/
def alistUpsert {κ α : Type} [DecidableEq κ] (k : κ) (f : Option α → α) :
    List (κ × α) → List (κ × α)
  | [] => [(k, f none)]
  | p :: rest => if p.1 = k then (p.1, f (some p.2)) :: rest else p :: alistUpsert k f rest

/-- One step of Python's set-insertion pattern on an
insertion-ordered, duplicate-free list: add `m` at the end unless
already present. -/
def addNew {α : Type} [DecidableEq α] (acc : List α) (m : α) : List α :=
  if m ∈ acc then acc else acc ++ [m]

/-- Folding `addNew` over a list: the insertion-ordered set of its
elements, starting from `acc`. -/
def addAll {α : Type} [DecidableEq α] (acc ms : List α) : List α := ms.foldl addNew acc

/-- Lexicographic comparison of character lists by code point. -/
def charListLe : List Char → List Char → Bool
  | [], _ => true
  | _ :: _, [] => false
  | a :: as, b :: bs => if a < b then true else if a = b then charListLe as bs else false

/-- Python's string `<=` (code-point lexicographic), the order used by
`sorted` on strings.  `strLeB_iff_le` below proves it agrees with
Lean's `String` order; it is stated on the character lists so that it
evaluates by kernel reduction. -/
def strLeB (a b : String) : Bool := charListLe a.data b.data

/-- Python `s.lower().strip()`, modelled structurally on the character
list (Lean's builtin `String.toLower`/`String.trim` compute the same
value but are defined by well-founded recursion on byte positions,
which blocks kernel evaluation). -/
def lowerStrip (s : String) : String :=
  ⟨(((s.data.map Char.toLower).dropWhile Char.isWhitespace).reverse.dropWhile
      Char.isWhitespace).reverse⟩

/-- Round-half-to-even on rationals, the rounding rule of Python's
built-in `round` (on an exactly represented value). -/
def roundHalfEven (q : ℚ) : ℤ :=
  if q - ⌊q⌋ < 1/2 then ⌊q⌋
  else if 1/2 < q - ⌊q⌋ then ⌊q⌋ + 1
  else if ⌊q⌋ % 2 = 0 then ⌊q⌋ else ⌊q⌋ + 1

/-- Python `round(q, 2)`. -/
def round2 (q : ℚ) : ℚ := (roundHalfEven (q * 100) : ℚ) / 100

/-- `statistics.mean`: sum over length (`qmean [] = 0` by rational
division-by-zero convention; the code never takes the mean of an
empty list on a path the proofs use it). -/
def qmean (xs : List ℚ) : ℚ := xs.sum / xs.length

/-- The square of `statistics.stdev`: Bessel-corrected sample
variance, `Σ (x - mean)² / (n - 1)`. -/
def besselVar (xs : List ℚ) : ℚ :=
  (xs.map (fun x => (x - qmean xs) ^ 2)).sum / ((xs.length : ℚ) - 1)

/-- Calendar timestamp, the fields of a Python `datetime` the tools
read. -/
structure DateTime where
  year : Nat
  month : Nat
  day : Nat
  hour : Nat
  minute : Nat
  second : Nat
  deriving DecidableEq

/-- Zero-pad to two digits, as in `%m`, `%d`, `{m:02}`. -/
def pad2 (n : Nat) : String := if n < 10 then "0" ++ toString n else toString n

/-- `timestamp.strftime("%Y-%m")`. -/
def fmtYM (t : DateTime) : String := toString t.year ++ "-" ++ pad2 t.month

/-- `timestamp.strftime("%Y-%m-%d")`. -/
def fmtYMD (t : DateTime) : String := fmtYM t ++ "-" ++ pad2 t.day

/-- `timestamp.isoformat()` (to second precision). -/
def isoformat (t : DateTime) : String :=
  fmtYMD t ++ "T" ++ pad2 t.hour ++ ":" ++ pad2 t.minute ++ ":" ++ pad2 t.second

/-- One purchased line of a receipt. -/
structure Item where
  name : String
  category : String
  amount : ℚ
  deriving DecidableEq

/-- One transaction record as stored for a user. -/
structure Receipt where
  receipt_id : String
  timestamp : DateTime
  merchant : String
  category_summary : List (String × ℚ)
  items : List Item
  deriving DecidableEq

/-! ## Anomaly Detector (`src/agents/tools/anomolytool.py`) -/

/-- `receipt["total_spend"] = sum(item["amount"] for item in receipt.get("items", []))`. -/
def total_spend (r : Receipt) : ℚ := (r.items.map (·.amount)).sum

/-- The `category_spend` accumulator: for each receipt in stream order,
for each item in order, append the item's amount to the list at the
item's *raw* `category` key (`defaultdict(list)`). -/
def categorySpend (rs : List Receipt) : List (String × List ℚ) :=
  rs.foldl
    (fun acc r =>
      r.items.foldl
        (fun acc it => alistUpsert it.category (fun o => o.getD [] ++ [it.amount]) acc)
        acc)
    []

/-- `category_avg = {cat: mean(amts) for cat, amts in category_spend.items()}`. -/
def category_avg (rs : List Receipt) : List (String × ℚ) :=
  (categorySpend rs).map (fun p => (p.1, qmean p.2))

/-- The receipt-level anomaly test `total_spend > mean_total + 2 * std_total`,
stated without the square root: for `v ≥ 0` (which holds for a sample
variance), `t > m + 2·√v ↔ t - m > 0 ∧ (t - m)² > 4·v`; the right-hand
side is decidable over `ℚ`, and `twoSigma_iff_real` below proves the
equivalence with the square-root form the source computes. -/
def twoSigmaFlag (t m v : ℚ) : Bool :=
  decide (0 < t - m) && decide (4 * v < (t - m) ^ 2)

/-- One flagged item inside a flagged receipt. -/
structure CategoryAnomaly where
  name : String
  category : String
  amount : ℚ
  avg_category_amount : ℚ
  deriving DecidableEq

/-- The inner item loop of the detector: an item is flagged when the
pooled mean of its raw category (`category_avg.get(item["category"], 0)`)
is positive and `item["amount"] > 1.5 * avg`. -/
def categoryAnomaliesOf (avgs : List (String × ℚ)) (r : Receipt) : List CategoryAnomaly :=
  r.items.filterMap fun it =>
    let avg := (alistFind it.category avgs).getD 0
    if 0 < avg ∧ 1.5 * avg < it.amount then
      some ⟨it.name, it.category, it.amount, round2 avg⟩
    else none

/-- One entry of the `anomalies` output list.  (The human-readable
`anomaly_reason` string of the source prints the rounded threshold and
carries no further data; it is not modelled.) -/
structure ReceiptAnomaly where
  receipt_id : String
  timestamp : String
  merchant : String
  total_spend : ℚ
  category_anomalies : List CategoryAnomaly
  deriving DecidableEq

/-- The output entry built for a flagged receipt. -/
def anomalyEntry (avgs : List (String × ℚ)) (r : Receipt) : ReceiptAnomaly :=
  ⟨r.receipt_id, isoformat r.timestamp, r.merchant, total_spend r, categoryAnomaliesOf avgs r⟩

/-- The `anomalies` list of the success-path result: receipts whose
total spend exceeds `mean_total + 2 * std_total`, in stream order. -/
def anomalyEntries (rs : List Receipt) : List ReceiptAnomaly :=
  let totals := rs.map total_spend
  (rs.filter (fun r => twoSigmaFlag (total_spend r) (qmean totals) (besselVar totals))).map
    (anomalyEntry (category_avg rs))

/-- A value of the result dictionary of `detect_anomalies_for_user`. -/
inductive AnomalyVal where
  | vStr (s : String)
  | vList (l : List ReceiptAnomaly)
  deriving DecidableEq

/-- `detect_anomalies_for_user`, with the impure inputs made explicit:
the stream of the user's receipts and the `datetime.now().isoformat()`
reading.  The result is the returned dictionary, keys in construction
order. -/
def detect_anomalies_for_user (uid now : String) (rs : List Receipt) :
    List (String × AnomalyVal) :=
  if (rs.map total_spend).length < 2 then
    [("message", AnomalyVal.vStr "Not enough data for anomaly detection.")]
  else
    [("uid", AnomalyVal.vStr uid),
     ("detected_at", AnomalyVal.vStr now),
     ("anomalies", AnomalyVal.vList (anomalyEntries rs))]

/-! ## Recurring-Expense Detector (`src/agents/tools/RecurringExpenseTool.py`) -/

/-- The item identity key `(item["name"].lower().strip(), item["category"].lower().strip())`. -/
def itemKey (it : Item) : String × String := (lowerStrip it.name, lowerStrip it.category)

/-- Per-group accumulator of the tracker: the `months` set is modelled
as a duplicate-free list in first-insertion order (`set.add`). -/
structure GroupData where
  months : List String
  total_amount : ℚ
  occurrences : Nat
  deriving DecidableEq

/-- Processing of one item of a receipt whose month id is `month`:
`defaultdict` access at `itemKey`, then `months.add`, `+= amount`, `+= 1`. -/
def trackItem (month : String) (it : Item)
    (acc : List ((String × String) × GroupData)) : List ((String × String) × GroupData) :=
  alistUpsert (itemKey it)
    (fun o =>
      let d := o.getD ⟨[], 0, 0⟩
      ⟨addNew d.months month, d.total_amount + it.amount, d.occurrences + 1⟩)
    acc

/-- The `recurring_tracker` after the double loop over receipts and items. -/
def recurringTracker (rs : List Receipt) : List ((String × String) × GroupData) :=
  rs.foldl (fun acc r => r.items.foldl (fun acc it => trackItem (fmtYM r.timestamp) it acc) acc) []

/-- One entry of the `recurring_items` output list. -/
structure RecurringItem where
  name : String
  category : String
  months_appeared : List String
  total_amount : ℚ
  average_amount : ℚ
  deriving DecidableEq

/-- `detect_recurring_expenses`: the `recurring_items` list — groups of
the tracker appearing in at least 2 distinct months, with their month
set sorted ascending (`sorted(data["months"])`). -/
def detect_recurring_expenses (rs : List Receipt) : List RecurringItem :=
  (recurringTracker rs).filterMap fun kd =>
    if 2 ≤ kd.2.months.length then
      some ⟨kd.1.1, kd.1.2, kd.2.months.mergeSort strLeB,
            round2 kd.2.total_amount,
            round2 (kd.2.total_amount / (kd.2.occurrences : ℚ))⟩
    else none

/-! ## Trend Analyzer (`src/agents/tools/TrendTool.py`) -/

/-- One value of the `trend_summary` mapping. -/
structure TrendEntry where
  previous : ℚ
  current : ℚ
  change : ℚ
  percent_change : ℚ
  deriving DecidableEq

/-- `all_categories = set(this_data) | set(last_data)`: the union of the
key sets.  Python iterates a set in an unspecified order; the embedding
fixes left-to-right first-occurrence order, which is immaterial because
the result is a mapping queried by key. -/
def all_categories (this_data last_data : List (String × ℚ)) : List String :=
  addAll [] ((this_data.map (·.1)) ++ (last_data.map (·.1)))

/-- The `trend_summary` mapping built by `get_category_trends` (the
surrounding `uid` / `month` / `generated_at` fields of the returned
dictionary are pass-through presentation, not modelled). -/
def get_category_trends (this_data last_data : List (String × ℚ)) :
    List (String × TrendEntry) :=
  (all_categories this_data last_data).map fun cat =>
    let curr := (alistFind cat this_data).getD 0
    let prev := (alistFind cat last_data).getD 0
    let change := curr - prev
    let percent := if prev ≠ 0 then change / prev * 100 else if curr ≠ 0 then (100 : ℚ) else 0
    (cat, ⟨round2 prev, round2 curr, round2 change, round2 percent⟩)

/-! ## Aggregator (`src/agents/HisabAgent/tools/CoreAggregatorTool.py`) -/

/-- `day_total = sum(receipt["category_summary"].values())`. -/
def day_total (r : Receipt) : ℚ := (r.category_summary.map (·.2)).sum

/-- The `category_breakdown` accumulator:
`category_breakdown[cat] = category_breakdown.get(cat, 0) + amt` over
every `category_summary` pair of every receipt, in stream order. -/
def category_breakdown (rs : List Receipt) : List (String × ℚ) :=
  rs.foldl
    (fun acc r =>
      r.category_summary.foldl (fun acc ca => alistUpsert ca.1 (fun o => o.getD 0 + ca.2) acc) acc)
    []

/-- The `daily_series` accumulator, keyed by `timestamp.strftime("%Y-%m-%d")`. -/
def daily_series (rs : List Receipt) : List (String × ℚ) :=
  rs.foldl (fun acc r => alistUpsert (fmtYMD r.timestamp) (fun o => o.getD 0 + day_total r) acc) []

/-- `sorted(category_breakdown.items(), key=lambda x: x[1], reverse=True)`:
a stable sort by value descending (CPython's `sorted` with `reverse=True`
keeps tied elements in their original order). -/
def sortedBreakdown (rs : List Receipt) : List (String × ℚ) :=
  (category_breakdown rs).mergeSort (fun a b => decide (b.2 ≤ a.2))

/-- The monthly report returned by the Aggregator. -/
structure MonthlyReport where
  uid : String
  month : String
  total_spend : ℚ
  category_breakdown : List (String × ℚ)
  top_categories : List String
  daily_series : List (String × ℚ)
  receipt_count : Nat
  average_per_receipt : ℚ
  generated_at : String
  deriving DecidableEq

/-- `aggregate_user_monthly_data`, with the impure inputs made explicit:
the receipts the store adapter returns for the `[month-start,
next-month-start)` query and the `datetime.now().isoformat()` reading. -/
def aggregate_user_monthly_data (uid : String) (year month : Nat) (now : String)
    (rs : List Receipt) : MonthlyReport :=
  let total := (rs.map day_total).sum
  let n := rs.length
  { uid := uid
    month := toString year ++ "-" ++ pad2 month
    total_spend := round2 total
    category_breakdown := category_breakdown rs
    top_categories := ((sortedBreakdown rs).take 5).map (·.1)
    daily_series := daily_series rs
    receipt_count := n
    average_per_receipt := if n ≠ 0 then round2 (total / (n : ℚ)) else 0
    generated_at := now }

/-! ## Time-Slot Analyzer (`src/agents/HisabAgent/tools/TimeSlotTool.py`) -/

/-- The slot classification of an hour of day. -/
def slotOf (hour : Nat) : String :=
  if 5 ≤ hour ∧ hour < 12 then "morning"
  else if 12 ≤ hour ∧ hour < 17 then "afternoon"
  else if 17 ≤ hour ∧ hour < 21 then "evening"
  else "night"

/-- `analyze_time_slots`: the `slot_summary` dictionary —
`slot_totals[slot] += total` (a `defaultdict(float)`, so a slot key
exists exactly when some receipt was classified into it). -/
def analyze_time_slots (rs : List Receipt) : List (String × ℚ) :=
  rs.foldl (fun acc r => alistUpsert (slotOf r.timestamp.hour) (fun o => o.getD 0 + total_spend r) acc) []

/-! ## Specification-side projections

Direct, fold-free readings of the data the accumulators above build,
used to state the claims: the month ids (with multiplicity) of the
occurrences of an identity key, the amounts of the items of a raw
category, the category names of all `category_summary` pairs, and the
`mean + 2·σ` threshold as a real number. -/

/-- The `YYYY-MM` month ids (one per occurrence, in stream order) of the
items whose identity key is `k`. -/
def monthsOfKey (k : String × String) (rs : List Receipt) : List String :=
  rs.flatMap fun r =>
    r.items.filterMap fun it => if itemKey it = k then some (fmtYM r.timestamp) else none

/-- The amounts (in stream order) of the items whose raw `category`
string is `c`, pooled across all receipts. -/
def amountsOf (c : String) (rs : List Receipt) : List ℚ :=
  rs.flatMap fun r =>
    r.items.filterMap fun it => if it.category = c then some it.amount else none

/-- All category names of all `category_summary` pairs, in stream order
(with multiplicity). -/
def allSummaryCats (rs : List Receipt) : List String :=
  rs.flatMap fun r => r.category_summary.map (·.1)

/-- The anomaly threshold `mean_total + 2 * std_total` as a real
number (`std_total` is a square root, hence irrational in general). -/
noncomputable def sigmaThreshold (rs : List Receipt) : ℝ :=
  ((qmean (rs.map total_spend) : ℚ) : ℝ) +
    2 * Real.sqrt ((besselVar (rs.map total_spend) : ℚ) : ℝ)

/-! ## Concrete data

Small receipt sets used to instantiate the theorems below on closed
inputs. -/

/-- The one receipt of `demoA` whose total spend (3) exceeds
`mean + 2·σ = 1/3 + 2·1 = 7/3` of the nine totals `0,…,0,3`. -/
def demoBig : Receipt :=
  ⟨"r9", ⟨2025, 7, 9, 22, 0, 0⟩, "shop", [], [⟨"x", "a", 3⟩, ⟨"y", "a", 0⟩]⟩

/-- Nine receipts: eight with a single zero-amount item and `demoBig`. -/
def demoA : List Receipt :=
  [⟨"r1", ⟨2025, 7, 1, 8, 0, 0⟩, "shop", [], [⟨"z", "a", 0⟩]⟩,
   ⟨"r2", ⟨2025, 7, 2, 8, 0, 0⟩, "shop", [], [⟨"z", "a", 0⟩]⟩,
   ⟨"r3", ⟨2025, 7, 3, 8, 0, 0⟩, "shop", [], [⟨"z", "a", 0⟩]⟩,
   ⟨"r4", ⟨2025, 7, 4, 8, 0, 0⟩, "shop", [], [⟨"z", "a", 0⟩]⟩,
   ⟨"r5", ⟨2025, 7, 5, 8, 0, 0⟩, "shop", [], [⟨"z", "a", 0⟩]⟩,
   ⟨"r6", ⟨2025, 7, 6, 8, 0, 0⟩, "shop", [], [⟨"z", "a", 0⟩]⟩,
   ⟨"r7", ⟨2025, 7, 7, 8, 0, 0⟩, "shop", [], [⟨"z", "a", 0⟩]⟩,
   ⟨"r8", ⟨2025, 7, 8, 8, 0, 0⟩, "shop", [], [⟨"z", "a", 0⟩]⟩,
   demoBig]

/-- Two single-receipt months of the spec's aggregator example. -/
def demo2 : List Receipt :=
  [⟨"g1", ⟨2025, 7, 1, 10, 0, 0⟩, "shop", [("groceries", 100), ("household", 20)], []⟩,
   ⟨"g2", ⟨2025, 7, 2, 13, 0, 0⟩, "shop", [("groceries", 50)], []⟩]

/-- A morning receipt totalling 60 and a night receipt totalling 40. -/
def demo9 : List Receipt :=
  [⟨"t1", ⟨2025, 7, 3, 8, 0, 0⟩, "shop", [], [⟨"i", "c", 60⟩]⟩,
   ⟨"t2", ⟨2025, 7, 3, 22, 0, 0⟩, "shop", [], [⟨"j", "c", 40⟩]⟩]

/-- A milk item recurring across two months under case/whitespace
variation, plus a one-month item. -/
def demo4 : List Receipt :=
  [⟨"m1", ⟨2025, 6, 1, 8, 0, 0⟩, "shop", [], [⟨"Milk", "Groceries", 60⟩]⟩,
   ⟨"m2", ⟨2025, 7, 1, 8, 0, 0⟩, "shop", [], [⟨"milk ", "groceries ", 65⟩]⟩,
   ⟨"m3", ⟨2025, 7, 2, 8, 0, 0⟩, "shop", [], [⟨"once", "misc", 5⟩]⟩]

/-- A receipt with an item in raw category `"food"`. -/
def cexReceiptA : Receipt :=
  ⟨"a", ⟨2024, 1, 1, 8, 0, 0⟩, "shop", [], [⟨"milk", "food", 4⟩]⟩

/-- A receipt with an item of the same name whose raw category
`"food "` differs only by a trailing space. -/
def cexReceiptB : Receipt :=
  ⟨"b", ⟨2024, 2, 1, 9, 0, 0⟩, "shop", [], [⟨"milk", "food ", 6⟩]⟩

/-! ## Association-list lemmas -/

theorem alistFind_upsert_self {κ α : Type} [DecidableEq κ] (k : κ) (f : Option α → α)
    (l : List (κ × α)) : alistFind k (alistUpsert k f l) = some (f (alistFind k l)) := by
  induction l with
  | nil => simp [alistFind, alistUpsert]
  | cons p rest ih =>
    by_cases h : p.1 = k
    · simp [alistFind, alistUpsert, h]
    · simp [alistFind, alistUpsert, h, ih]

theorem alistFind_upsert_ne {κ α : Type} [DecidableEq κ] {k k' : κ} (h : k' ≠ k)
    (f : Option α → α) (l : List (κ × α)) :
    alistFind k' (alistUpsert k f l) = alistFind k' l := by
  have hk : ¬ k = k' := fun he => h he.symm
  induction l with
  | nil => simp [alistFind, alistUpsert, hk]
  | cons p rest ih =>
    by_cases hp : p.1 = k
    · subst hp
      simp [alistFind, alistUpsert, hk]
    · simp [alistFind, alistUpsert, hp, ih]

theorem keys_upsert {κ α : Type} [DecidableEq κ] (k : κ) (f : Option α → α)
    (l : List (κ × α)) :
    (alistUpsert k f l).map Prod.fst = addNew (l.map Prod.fst) k := by
  induction l with
  | nil => simp [alistUpsert, addNew]
  | cons p rest ih =>
    by_cases hp : p.1 = k
    · subst hp
      simp [alistUpsert, addNew]
    · have hk : ¬ k = p.1 := fun he => hp he.symm
      by_cases hm : k ∈ rest.map Prod.fst
      · have : k ∈ p.1 :: rest.map Prod.fst := List.mem_cons_of_mem _ hm
        simp [alistUpsert, addNew, hp, ih, hm, this]
      · have : k ∉ p.1 :: rest.map Prod.fst := by
          simp [List.mem_cons, hk, hm]
        simp [alistUpsert, addNew, hp, ih, hm, this]

theorem mem_of_alistFind_eq_some {κ α : Type} [DecidableEq κ] {k : κ} {v : α}
    {l : List (κ × α)} (h : alistFind k l = some v) : (k, v) ∈ l := by
  induction l with
  | nil => simp [alistFind] at h
  | cons p rest ih =>
    by_cases hp : p.1 = k
    · rw [alistFind, if_pos hp] at h
      have : p = (k, v) := by
        cases p
        simp_all
      simp [this]
    · rw [alistFind, if_neg hp] at h
      exact List.mem_cons_of_mem _ (ih h)

theorem alistFind_eq_some_of_mem {κ α : Type} [DecidableEq κ] {k : κ} {v : α}
    {l : List (κ × α)} (hn : (l.map Prod.fst).Nodup) (h : (k, v) ∈ l) :
    alistFind k l = some v := by
  induction l with
  | nil => simp at h
  | cons p rest ih =>
    rcases List.mem_cons.mp h with h1 | h1
    · rw [← h1, alistFind, if_pos rfl]
    · have hk : k ∈ rest.map Prod.fst := by
        exact List.mem_map_of_mem Prod.fst h1
      have hp : p.1 ≠ k := fun he => ((List.nodup_cons.mp hn).1 (he ▸ hk))
      rw [alistFind, if_neg hp]
      exact ih (List.nodup_cons.mp hn).2 h1

theorem alistFind_eq_none_iff {κ α : Type} [DecidableEq κ] {k : κ} {l : List (κ × α)} :
    alistFind k l = none ↔ k ∉ l.map Prod.fst := by
  induction l with
  | nil => simp [alistFind]
  | cons p rest ih =>
    by_cases hp : p.1 = k
    · subst hp
      simp [alistFind]
    · have hk : ¬ k = p.1 := fun he => hp he.symm
      simp [alistFind, hp, ih, hk]

theorem alistFind_map_val {κ α β : Type} [DecidableEq κ] (g : α → β) (k : κ)
    (l : List (κ × α)) :
    alistFind k (l.map (fun p => (p.1, g p.2))) = (alistFind k l).map g := by
  induction l with
  | nil => simp [alistFind]
  | cons p rest ih =>
    by_cases hp : p.1 = k <;> simp [alistFind, hp, ih]

theorem alistFind_map_key {α : Type} (g : String → α) (cat : String) :
    ∀ cats : List String,
      alistFind cat (cats.map fun c => (c, g c)) =
        if cat ∈ cats then some (g cat) else none
  | [] => by simp [alistFind]
  | c :: cats => by
    by_cases hc : c = cat
    · subst hc
      simp [alistFind]
    · have hc' : ¬ cat = c := fun he => hc he.symm
      rw [List.map_cons, alistFind, if_neg hc, alistFind_map_key g cat cats]
      simp [List.mem_cons, hc']

/-! ## Lemmas about `addNew` / `addAll` -/

theorem mem_addNew {α : Type} [DecidableEq α] {x m : α} {acc : List α} :
    x ∈ addNew acc m ↔ x ∈ acc ∨ x = m := by
  by_cases h : m ∈ acc
  · simp only [addNew, if_pos h]
    constructor
    · exact Or.inl
    · rintro (hx | rfl) <;> assumption
  · simp [addNew, if_neg h]

theorem nodup_addNew {α : Type} [DecidableEq α] {acc : List α} (m : α) (h : acc.Nodup) :
    (addNew acc m).Nodup := by
  by_cases hm : m ∈ acc
  · simpa [addNew, hm] using h
  · simp only [addNew, if_neg hm]
    simpa [List.nodup_append] using ⟨h, hm⟩

theorem mem_addAll {α : Type} [DecidableEq α] {x : α} :
    ∀ (ms acc : List α), x ∈ addAll acc ms ↔ x ∈ acc ∨ x ∈ ms
  | [], acc => by simp [addAll]
  | m :: ms, acc => by
    have h1 : addAll acc (m :: ms) = addAll (addNew acc m) ms := rfl
    rw [h1, mem_addAll ms (addNew acc m), mem_addNew]
    simp [List.mem_cons]
    tauto

theorem nodup_addAll {α : Type} [DecidableEq α] :
    ∀ (ms acc : List α), acc.Nodup → (addAll acc ms).Nodup
  | [], _, h => h
  | m :: ms, acc, h => nodup_addAll ms (addNew acc m) (nodup_addNew m h)

theorem addAll_append {α : Type} [DecidableEq α] (acc l₁ l₂ : List α) :
    addAll acc (l₁ ++ l₂) = addAll (addAll acc l₁) l₂ :=
  List.foldl_append _ _ _ _

theorem length_addAll_nil {α : Type} [DecidableEq α] (ms : List α) :
    (addAll [] ms).length = ms.dedup.length := by
  have hnd : (addAll [] ms).Nodup := nodup_addAll ms [] List.nodup_nil
  have hset : (addAll [] ms).toFinset = ms.toFinset := by
    ext x
    simp [List.mem_toFinset, mem_addAll]
  calc (addAll [] ms).length
      = (addAll [] ms).toFinset.card := (List.toFinset_card_of_nodup hnd).symm
    _ = ms.toFinset.card := by rw [hset]
    _ = ms.dedup.length := List.card_toFinset ms

theorem addAll_nil_eq_nil_iff {α : Type} [DecidableEq α] (ms : List α) :
    addAll [] ms = [] ↔ ms = [] := by
  constructor
  · intro h
    apply List.eq_nil_iff_forall_not_mem.mpr
    intro x hx
    have hm := (mem_addAll ms []).mpr (Or.inr hx)
    simp [h] at hm
  · rintro rfl
    rfl

/-! ## The string order used by `sorted` -/

theorem charListLe_iff_not_lex :
    ∀ as bs : List Char, charListLe as bs = true ↔ ¬ List.Lex (· < ·) bs as
  | [], bs => by
    simp [charListLe, List.Lex.not_nil_right]
  | a :: as, [] => by
    constructor
    · intro h
      simp [charListLe] at h
    · intro h
      exact absurd List.Lex.nil h
  | a :: as, b :: bs => by
    rcases lt_trichotomy a b with h | h | h
    · rw [charListLe, if_pos h]
      constructor
      · intro _ hlt
        cases hlt with
        | cons _ => exact absurd h (lt_irrefl a)
        | rel hba => exact absurd h (lt_asymm hba)
      · intro _
        rfl
    · subst h
      rw [charListLe, if_neg (lt_irrefl a), if_pos rfl,
        charListLe_iff_not_lex as bs]
      constructor
      · intro hn hlt
        cases hlt with
        | cons h3 => exact hn h3
        | rel hba => exact absurd hba (lt_irrefl a)
      · intro hn hlt
        exact hn (List.Lex.cons hlt)
    · have hne : ¬ a = b := ne_of_gt h
      rw [charListLe, if_neg (not_lt_of_gt h), if_neg hne]
      constructor
      · intro hf
        simp at hf
      · intro hn
        exact absurd (List.Lex.rel h) hn

theorem strLeB_iff_le (a b : String) : strLeB a b = true ↔ a ≤ b := by
  rw [String.le_iff_toList_le, ← not_lt]
  have h1 : (b.toList < a.toList) ↔ List.Lex (· < ·) b.toList a.toList := Iff.rfl
  rw [h1]
  exact charListLe_iff_not_lex a.data b.data

theorem strLeB_trans (a b c : String) :
    strLeB a b = true → strLeB b c = true → strLeB a c = true := by
  rw [strLeB_iff_le, strLeB_iff_le, strLeB_iff_le]
  exact le_trans

theorem strLeB_total (a b : String) : (strLeB a b || strLeB b a) = true := by
  rcases le_total a b with h | h
  · simp [(strLeB_iff_le a b).mpr h]
  · simp [(strLeB_iff_le b a).mpr h]

/-! ## Characterization of the recurring tracker -/

/-- The month set stored for a key, `[]` when the key is absent. -/
def optMonths (o : Option GroupData) : List String :=
  match o with
  | none => []
  | some d => d.months

theorem optMonths_trackItem (m : String) (it : Item) (k : String × String)
    (acc : List ((String × String) × GroupData)) :
    optMonths (alistFind k (trackItem m it acc)) =
      if itemKey it = k then addNew (optMonths (alistFind k acc)) m
      else optMonths (alistFind k acc) := by
  by_cases h : itemKey it = k
  · rw [if_pos h, trackItem, h, alistFind_upsert_self]
    cases halt : alistFind k acc <;> simp [optMonths]
  · rw [if_neg h, trackItem, alistFind_upsert_ne (fun he => h he.symm)]

theorem optMonths_itemsFold (m : String) (k : String × String) :
    ∀ (its : List Item) (acc : List ((String × String) × GroupData)),
      optMonths (alistFind k (its.foldl (fun a it => trackItem m it a) acc)) =
        addAll (optMonths (alistFind k acc))
          (its.filterMap fun it => if itemKey it = k then some m else none)
  | [], acc => by simp [addAll]
  | it :: its, acc => by
    rw [List.foldl_cons, optMonths_itemsFold m k its (trackItem m it acc)]
    by_cases h : itemKey it = k
    · simp only [List.filterMap_cons, h, if_pos rfl, optMonths_trackItem]
      rfl
    · simp only [List.filterMap_cons, h, if_neg, optMonths_trackItem]
      simp [h]

theorem optMonths_tracker (k : String × String) :
    ∀ (rs : List Receipt) (acc : List ((String × String) × GroupData)),
      optMonths (alistFind k (rs.foldl
          (fun a r => r.items.foldl (fun a it => trackItem (fmtYM r.timestamp) it a) a) acc)) =
        addAll (optMonths (alistFind k acc)) (monthsOfKey k rs)
  | [], acc => by simp [monthsOfKey, addAll]
  | r :: rs, acc => by
    rw [List.foldl_cons, optMonths_tracker k rs _, optMonths_itemsFold]
    have hm : monthsOfKey k (r :: rs) =
        (r.items.filterMap fun it => if itemKey it = k then some (fmtYM r.timestamp) else none)
          ++ monthsOfKey k rs := by
      simp [monthsOfKey]
    rw [hm, addAll_append]

theorem tracker_months_eq (rs : List Receipt) (k : String × String) :
    optMonths (alistFind k (recurringTracker rs)) = addAll [] (monthsOfKey k rs) := by
  have h := optMonths_tracker k rs []
  simpa [recurringTracker, alistFind, optMonths] using h

theorem keys_trackItemsFold (m : String) :
    ∀ (its : List Item) (acc : List ((String × String) × GroupData)),
      ((its.foldl (fun a it => trackItem m it a) acc).map Prod.fst) =
        addAll (acc.map Prod.fst) (its.map itemKey)
  | [], acc => rfl
  | it :: its, acc => by
    rw [List.foldl_cons, keys_trackItemsFold m its (trackItem m it acc), trackItem, keys_upsert]
    rfl

theorem keys_tracker :
    ∀ (rs : List Receipt) (acc : List ((String × String) × GroupData)),
      ((rs.foldl
          (fun a r => r.items.foldl (fun a it => trackItem (fmtYM r.timestamp) it a) a) acc).map
        Prod.fst) =
        addAll (acc.map Prod.fst) (rs.flatMap fun r => r.items.map itemKey)
  | [], acc => by simp [addAll]
  | r :: rs, acc => by
    rw [List.foldl_cons, keys_tracker rs _, keys_trackItemsFold]
    simp [addAll_append]

theorem nodup_keys_tracker (rs : List Receipt) :
    ((recurringTracker rs).map Prod.fst).Nodup := by
  rw [recurringTracker, keys_tracker rs []]
  exact nodup_addAll _ _ List.nodup_nil

/-! ## Characterization of the anomaly detector's category pooling -/

/-- The amount list stored for a category, `[]` when the key is absent. -/
def optAmts (o : Option (List ℚ)) : List ℚ := o.getD []

theorem optAmts_catStep (it : Item) (c : String) (acc : List (String × List ℚ)) :
    optAmts (alistFind c (alistUpsert it.category (fun o => o.getD [] ++ [it.amount]) acc)) =
      optAmts (alistFind c acc) ++ (if it.category = c then [it.amount] else []) := by
  by_cases h : it.category = c
  · rw [if_pos h, h, alistFind_upsert_self]
    cases halt : alistFind c acc <;> simp [optAmts]
  · rw [if_neg h, alistFind_upsert_ne (fun he => h he.symm)]
    simp

theorem optAmts_itemsFold (c : String) :
    ∀ (its : List Item) (acc : List (String × List ℚ)),
      optAmts (alistFind c (its.foldl
          (fun acc it => alistUpsert it.category (fun o => o.getD [] ++ [it.amount]) acc) acc)) =
        optAmts (alistFind c acc) ++
          (its.filterMap fun it => if it.category = c then some it.amount else none)
  | [], acc => by simp
  | it :: its, acc => by
    rw [List.foldl_cons, optAmts_itemsFold c its _, optAmts_catStep]
    by_cases h : it.category = c
    · simp [List.filterMap_cons, h]
    · simp [List.filterMap_cons, h]

theorem optAmts_categorySpend (c : String) :
    ∀ (rs : List Receipt) (acc : List (String × List ℚ)),
      optAmts (alistFind c (rs.foldl
          (fun acc r => r.items.foldl
            (fun acc it => alistUpsert it.category (fun o => o.getD [] ++ [it.amount]) acc) acc)
          acc)) =
        optAmts (alistFind c acc) ++ amountsOf c rs
  | [], acc => by simp [amountsOf]
  | r :: rs, acc => by
    rw [List.foldl_cons, optAmts_categorySpend c rs _, optAmts_itemsFold]
    have hm : amountsOf c (r :: rs) =
        (r.items.filterMap fun it => if it.category = c then some it.amount else none)
          ++ amountsOf c rs := by
      simp [amountsOf]
    rw [hm, List.append_assoc]

theorem amountsOf_eq (c : String) (rs : List Receipt) :
    optAmts (alistFind c (categorySpend rs)) = amountsOf c rs := by
  have h := optAmts_categorySpend c rs []
  simpa [categorySpend, alistFind, optAmts] using h

theorem qmean_nil : qmean [] = 0 := by simp [qmean]

theorem catAvg_eq (c : String) (rs : List Receipt) :
    (alistFind c (category_avg rs)).getD 0 = qmean (amountsOf c rs) := by
  rw [category_avg, alistFind_map_val]
  cases h : alistFind c (categorySpend rs) with
  | none =>
    have ha : amountsOf c rs = [] := by
      have := amountsOf_eq c rs
      rw [h] at this
      simpa [optAmts] using this.symm
    rw [ha, qmean_nil]
    simp
  | some l =>
    have := amountsOf_eq c rs
    rw [h] at this
    simp [optAmts] at this
    simp [← this]

/-! ## The `mean + 2·σ` threshold -/

theorem sq_cond_iff_sqrt {a v : ℝ} (hv : 0 ≤ v) :
    (0 < a ∧ 4 * v < a ^ 2) ↔ 2 * Real.sqrt v < a := by
  constructor
  · rintro ⟨ha, hsq⟩
    have h4 : (0:ℝ) ≤ 4 * v := by linarith
    have h1 : Real.sqrt (4 * v) < Real.sqrt (a ^ 2) := Real.sqrt_lt_sqrt h4 hsq
    rw [Real.sqrt_sq ha.le] at h1
    have h2 : Real.sqrt (4 * v) = 2 * Real.sqrt v := by
      rw [show (4:ℝ) * v = 2 ^ 2 * v by ring, Real.sqrt_mul (by positivity),
        Real.sqrt_sq (by norm_num)]
    rw [h2] at h1
    exact h1
  · intro h
    have hs := Real.sqrt_nonneg v
    have ha : 0 < a := lt_of_le_of_lt (by positivity) h
    refine ⟨ha, ?_⟩
    have hv2 : Real.sqrt v ^ 2 = v := Real.sq_sqrt hv
    nlinarith [h, hs, hv2]

theorem besselVar_nonneg {xs : List ℚ} (h : 2 ≤ xs.length) : 0 ≤ besselVar xs := by
  apply div_nonneg
  · apply List.sum_nonneg
    intro x hx
    rcases List.mem_map.mp hx with ⟨y, _, rfl⟩
    positivity
  · have h2 : (2:ℚ) ≤ (xs.length : ℚ) := by exact_mod_cast h
    linarith

theorem twoSigma_iff_real {t m v : ℚ} (hv : 0 ≤ v) :
    twoSigmaFlag t m v = true ↔ (m : ℝ) + 2 * Real.sqrt (v : ℝ) < (t : ℝ) := by
  rw [twoSigmaFlag, Bool.and_eq_true, decide_eq_true_iff, decide_eq_true_iff]
  have hcast : ((0:ℚ) < t - m ∧ 4 * v < (t - m) ^ 2) ↔
      (0 < (t:ℝ) - (m:ℝ) ∧ 4 * (v:ℝ) < ((t:ℝ) - (m:ℝ)) ^ 2) := by
    constructor <;> rintro ⟨h1, h2⟩ <;> exact ⟨by exact_mod_cast h1, by exact_mod_cast h2⟩
  rw [hcast, sq_cond_iff_sqrt (by exact_mod_cast hv), lt_sub_iff_add_lt']

/-! ## Keys and sums of the aggregator and time-slot accumulators -/

theorem keys_breakdownPairsFold :
    ∀ (cs : List (String × ℚ)) (acc : List (String × ℚ)),
      ((cs.foldl (fun acc ca => alistUpsert ca.1 (fun o => o.getD 0 + ca.2) acc) acc).map
        Prod.fst) = addAll (acc.map Prod.fst) (cs.map Prod.fst)
  | [], _ => rfl
  | ca :: cs, acc => by
    rw [List.foldl_cons, keys_breakdownPairsFold cs _, keys_upsert]
    rfl

theorem keys_breakdown :
    ∀ (rs : List Receipt) (acc : List (String × ℚ)),
      ((rs.foldl (fun acc r => r.category_summary.foldl
          (fun acc ca => alistUpsert ca.1 (fun o => o.getD 0 + ca.2) acc) acc) acc).map
        Prod.fst) = addAll (acc.map Prod.fst) (allSummaryCats rs)
  | [], acc => by simp [allSummaryCats, addAll]
  | r :: rs, acc => by
    rw [List.foldl_cons, keys_breakdown rs _, keys_breakdownPairsFold]
    have h : allSummaryCats (r :: rs) = r.category_summary.map Prod.fst ++ allSummaryCats rs := by
      simp [allSummaryCats]
    rw [h, addAll_append]

theorem length_category_breakdown (rs : List Receipt) :
    (category_breakdown rs).length = (allSummaryCats rs).dedup.length := by
  have h := keys_breakdown rs []
  have hlen : (category_breakdown rs).length = ((category_breakdown rs).map Prod.fst).length :=
    (List.length_map _ _).symm
  rw [hlen, category_breakdown, h]
  simpa using length_addAll_nil (allSummaryCats rs)

theorem keys_slots :
    ∀ (rs : List Receipt) (acc : List (String × ℚ)),
      ((rs.foldl (fun acc r =>
          alistUpsert (slotOf r.timestamp.hour) (fun o => o.getD 0 + total_spend r) acc)
        acc).map Prod.fst) =
        addAll (acc.map Prod.fst) (rs.map fun r => slotOf r.timestamp.hour)
  | [], _ => rfl
  | r :: rs, acc => by
    rw [List.foldl_cons, keys_slots rs _, keys_upsert]
    rfl

theorem sum_upsert_add {κ : Type} [DecidableEq κ] (k : κ) (t : ℚ) :
    ∀ l : List (κ × ℚ),
      ((alistUpsert k (fun o => o.getD 0 + t) l).map Prod.snd).sum = (l.map Prod.snd).sum + t
  | [] => by simp [alistUpsert]
  | p :: rest => by
    by_cases hp : p.1 = k
    · simp [alistUpsert, hp]
      ring
    · simp [alistUpsert, hp, sum_upsert_add k t rest]
      ring

theorem sum_slots :
    ∀ (rs : List Receipt) (acc : List (String × ℚ)),
      ((rs.foldl (fun acc r =>
          alistUpsert (slotOf r.timestamp.hour) (fun o => o.getD 0 + total_spend r) acc)
        acc).map Prod.snd).sum =
        (acc.map Prod.snd).sum + (rs.map total_spend).sum
  | [], acc => by simp
  | r :: rs, acc => by
    rw [List.foldl_cons, sum_slots rs _, sum_upsert_add]
    simp
    ring

theorem sum_total_spend_flatMap (rs : List Receipt) :
    (rs.map total_spend).sum = ((rs.flatMap (·.items)).map (·.amount)).sum := by
  induction rs with
  | nil => simp
  | cons r rs ih => simp [total_spend, ih]

/-! ## Claims -/

/-- C2: with fewer than 2 receipts the Anomaly Detector returns the
explicit insufficient-data sentinel — the single-key `message`
dictionary — and performs no statistical computation (the embedding is
a total function, so no fault is raised). -/
theorem C2_insufficient_data (uid now : String) (rs : List Receipt) (h : rs.length < 2) :
    detect_anomalies_for_user uid now rs =
      [("message", AnomalyVal.vStr "Not enough data for anomaly detection.")] := by
  rw [detect_anomalies_for_user, if_pos (by simpa using h)]

theorem C2_witness :
    detect_anomalies_for_user "u" "t" [] =
      [("message", AnomalyVal.vStr "Not enough data for anomaly detection.")] :=
  C2_insufficient_data "u" "t" [] (by decide)

/-- C10: the insufficient-data sentinel consists of only the `message`
key — lookups of `uid`, `detected_at` and `anomalies` all fail on it —
while the success-path result carries exactly those three keys. -/
theorem C10_sentinel_shape (uid now : String) (rs : List Receipt) :
    (rs.length < 2 →
      ((detect_anomalies_for_user uid now rs).map Prod.fst = ["message"] ∧
        alistFind "uid" (detect_anomalies_for_user uid now rs) = none ∧
        alistFind "detected_at" (detect_anomalies_for_user uid now rs) = none ∧
        alistFind "anomalies" (detect_anomalies_for_user uid now rs) = none)) ∧
    (2 ≤ rs.length →
      (detect_anomalies_for_user uid now rs).map Prod.fst =  ["uid", "detected_at", "anomalies"]) := by
  constructor
  · intro h
    rw [detect_anomalies_for_user, if_pos (by simpa using h)]
    refine ⟨rfl, ?_, ?_, ?_⟩ <;> simp [alistFind]
  · intro h
    rw [detect_anomalies_for_user, if_neg (by simpa using Nat.not_lt.mpr h)]
    rfl

theorem C10_witness :
    ((detect_anomalies_for_user "u" "t" []).map Prod.fst = ["message"] ∧
      alistFind "uid" (detect_anomalies_for_user "u" "t" []) = none ∧
      alistFind "detected_at" (detect_anomalies_for_user "u" "t" []) = none ∧
      alistFind "anomalies" (detect_anomalies_for_user "u" "t" []) = none) ∧
    (detect_anomalies_for_user "u" "t" demoA).map Prod.fst = ["uid", "detected_at", "anomalies"] :=
  ⟨(C10_sentinel_shape "u" "t" []).1 (by decide),
   (C10_sentinel_shape "u" "t" demoA).2 (by decide)⟩

/-- C8: `average_per_receipt` is `total/count` rounded to 2 decimals
for a nonzero receipt count and `0.0` for zero receipts (the division
is guarded), `receipt_count` counts the input receipts, and even for
zero receipts a complete report is returned. -/
theorem C8_average_guard (uid : String) (year month : Nat) (now : String) (rs : List Receipt) :
    ((aggregate_user_monthly_data uid year month now rs).receipt_count = rs.length) ∧
    (rs.length ≠ 0 →
      (aggregate_user_monthly_data uid year month now rs).average_per_receipt =
        round2 ((rs.map day_total).sum / (rs.length : ℚ))) ∧
    (rs.length = 0 →
      (aggregate_user_monthly_data uid year month now rs).average_per_receipt = 0) ∧
    aggregate_user_monthly_data uid year month now [] =
      ⟨uid, toString year ++ "-" ++ pad2 month, 0, [], [], [], 0, 0, now⟩ := by
  refine ⟨rfl, ?_, ?_, ?_⟩
  · intro h
    simp [aggregate_user_monthly_data, h]
  · intro h
    simp [aggregate_user_monthly_data, h]
  · have hr0 : round2 0 = 0 := by
      norm_num [round2, roundHalfEven]
    simp [aggregate_user_monthly_data, category_breakdown, daily_series, sortedBreakdown, hr0]

theorem C8_witness :
    (aggregate_user_monthly_data "u" 2025 7 "t" demo2).receipt_count = demo2.length ∧
    (aggregate_user_monthly_data "u" 2025 7 "t" demo2).average_per_receipt =
      round2 ((demo2.map day_total).sum / (demo2.length : ℚ)) ∧
    (aggregate_user_monthly_data "u" 2025 7 "t" []).average_per_receipt = 0 :=
  ⟨(C8_average_guard "u" 2025 7 "t" demo2).1,
   (C8_average_guard "u" 2025 7 "t" demo2).2.1 (by decide),
   (C8_average_guard "u" 2025 7 "t" []).2.2.1 rfl⟩

/-- C9: every receipt's item-amount total is accumulated into exactly
one of the four fixed slots — the slot values sum to the total of all
item amounts — and a slot name is a key of `slot_summary` exactly when
some receipt was classified into it. -/
theorem C9_slot_partition (rs : List Receipt) :
    ((analyze_time_slots rs).map Prod.snd).sum = ((rs.flatMap (·.items)).map (·.amount)).sum ∧
    (∀ s : String,
      s ∈ (analyze_time_slots rs).map Prod.fst ↔ ∃ r ∈ rs, slotOf r.timestamp.hour = s) ∧
    (∀ r : Receipt, slotOf r.timestamp.hour ∈ ["morning", "afternoon", "evening", "night"]) := by
  refine ⟨?_, ?_, ?_⟩
  · rw [analyze_time_slots, sum_slots rs [], sum_total_spend_flatMap]
    simp
  · intro s
    rw [analyze_time_slots, keys_slots rs []]
    rw [mem_addAll]
    simp [List.mem_map, eq_comm]
  · intro r
    rw [slotOf]
    split_ifs <;> simp

theorem C9_witness :
    ((analyze_time_slots demo9).map Prod.snd).sum =
      ((demo9.flatMap (·.items)).map (·.amount)).sum ∧
    (∀ s : String,
      s ∈ (analyze_time_slots demo9).map Prod.fst ↔ ∃ r ∈ demo9, slotOf r.timestamp.hour = s) ∧
    (∀ r : Receipt, slotOf r.timestamp.hour ∈ ["morning", "afternoon", "evening", "night"]) :=
  C9_slot_partition demo9

theorem round2_hundred : round2 100 = 100 := by
  norm_num [round2, roundHalfEven]

theorem round2_zero : round2 0 = 0 := by
  norm_num [round2, roundHalfEven]

/-- C3: for every category in the union of the two period mappings the
trend summary has an entry whose `change` is `current - previous` and
whose `percent_change` follows the division policy — `change/previous*100`
for a nonzero previous, exactly `100` for a new category, exactly `0`
when both are zero (all four fields 2-decimal rounded for presentation,
as specified; `100` and `0` are fixed points of that rounding). -/
theorem C3_trend_policy (this_data last_data : List (String × ℚ)) (cat : String)
    (h : cat ∈ this_data.map Prod.fst ∨ cat ∈ last_data.map Prod.fst) :
    (alistFind cat (get_category_trends this_data last_data) =
      some ⟨round2 ((alistFind cat last_data).getD 0),
            round2 ((alistFind cat this_data).getD 0),
            round2 ((alistFind cat this_data).getD 0 - (alistFind cat last_data).getD 0),
            round2 (if (alistFind cat last_data).getD 0 ≠ 0
              then ((alistFind cat this_data).getD 0 - (alistFind cat last_data).getD 0)
                    / (alistFind cat last_data).getD 0 * 100
              else if (alistFind cat this_data).getD 0 ≠ 0 then (100 : ℚ) else 0)⟩) ∧
    ((alistFind cat last_data).getD 0 = 0 → (alistFind cat this_data).getD 0 ≠ 0 →
      (alistFind cat (get_category_trends this_data last_data)).map
        TrendEntry.percent_change = some 100) ∧
    ((alistFind cat last_data).getD 0 = 0 → (alistFind cat this_data).getD 0 = 0 →
      (alistFind cat (get_category_trends this_data last_data)).map
        TrendEntry.percent_change = some 0) := by
  have hmem : cat ∈ all_categories this_data last_data := by
    rw [all_categories, mem_addAll]
    right
    rw [List.mem_append]
    exact h
  have hdef : get_category_trends this_data last_data =
      (all_categories this_data last_data).map (fun c =>
        (c, (⟨round2 ((alistFind c last_data).getD 0),
              round2 ((alistFind c this_data).getD 0),
              round2 ((alistFind c this_data).getD 0 - (alistFind c last_data).getD 0),
              round2 (if (alistFind c last_data).getD 0 ≠ 0
                then ((alistFind c this_data).getD 0 - (alistFind c last_data).getD 0)
                      / (alistFind c last_data).getD 0 * 100
                else if (alistFind c this_data).getD 0 ≠ 0 then (100 : ℚ) else 0)⟩ :
            TrendEntry))) := rfl
  have hfind := alistFind_map_key (fun c =>
      (⟨round2 ((alistFind c last_data).getD 0),
        round2 ((alistFind c this_data).getD 0),
        round2 ((alistFind c this_data).getD 0 - (alistFind c last_data).getD 0),
        round2 (if (alistFind c last_data).getD 0 ≠ 0
          then ((alistFind c this_data).getD 0 - (alistFind c last_data).getD 0)
                / (alistFind c last_data).getD 0 * 100
          else if (alistFind c this_data).getD 0 ≠ 0 then (100 : ℚ) else 0)⟩ :
      TrendEntry)) cat (all_categories this_data last_data)
  rw [if_pos hmem] at hfind
  refine ⟨by rw [hdef, hfind], ?_, ?_⟩
  · intro h0 h1
    rw [hdef, hfind]
    simp [h0, h1, round2_hundred]
  · intro h0 h1
    rw [hdef, hfind]
    simp [h0, h1, round2_zero]

theorem C3_witness :
    (alistFind "new" (get_category_trends [("new", 50)] [("gone", 30)]) =
      some ⟨round2 ((alistFind "new" [("gone", 30)]).getD 0),
            round2 ((alistFind "new" [(("new" : String), (50 : ℚ))]).getD 0),
            round2 ((alistFind "new" [(("new" : String), (50 : ℚ))]).getD 0 -
              (alistFind "new" [(("gone" : String), (30 : ℚ))]).getD 0),
            round2 (if (alistFind "new" [(("gone" : String), (30 : ℚ))]).getD 0 ≠ 0
              then ((alistFind "new" [(("new" : String), (50 : ℚ))]).getD 0 -
                  (alistFind "new" [(("gone" : String), (30 : ℚ))]).getD 0)
                    / (alistFind "new" [(("gone" : String), (30 : ℚ))]).getD 0 * 100
              else if (alistFind "new" [(("new" : String), (50 : ℚ))]).getD 0 ≠ 0
                then (100 : ℚ) else 0)⟩) ∧
    (alistFind "new" (get_category_trends [("new", 50)] [("gone", 30)])).map
      TrendEntry.percent_change = some 100 :=
  ⟨(C3_trend_policy [("new", 50)] [("gone", 30)] "new" (by simp)).1,
   (C3_trend_policy [("new", 50)] [("gone", 30)] "new" (by simp)).2.1
     (by simp [alistFind]) (by simp [alistFind])⟩

/-- C7: `top_categories` is the first `min(5, distinct-category-count)`
names of the stable descending sort of the breakdown: its length is
exactly that minimum, the sort is weakly decreasing in the accumulated
amount, is a permutation of the breakdown, and keeps tied entries in
their original breakdown order. -/
theorem C7_top_categories (uid : String) (year month : Nat) (now : String)
    (rs : List Receipt) :
    ((aggregate_user_monthly_data uid year month now rs).top_categories =
      ((sortedBreakdown rs).take 5).map Prod.fst) ∧
    ((aggregate_user_monthly_data uid year month now rs).top_categories.length =
      min 5 (allSummaryCats rs).dedup.length) ∧
    List.Pairwise (fun a b : String × ℚ => b.2 ≤ a.2) (sortedBreakdown rs) ∧
    (sortedBreakdown rs).Perm (category_breakdown rs) ∧
    (∀ p q : String × ℚ, p.2 = q.2 → [p, q].Sublist (category_breakdown rs) →
      [p, q].Sublist (sortedBreakdown rs)) := by
  have htrans : ∀ a b c : String × ℚ,
      (fun a b : String × ℚ => decide (b.2 ≤ a.2)) a b = true →
      (fun a b : String × ℚ => decide (b.2 ≤ a.2)) b c = true →
      (fun a b : String × ℚ => decide (b.2 ≤ a.2)) a c = true := by
    intro a b c hab hbc
    simp only [decide_eq_true_iff] at *
    exact le_trans hbc hab
  have htotal : ∀ a b : String × ℚ,
      ((fun a b : String × ℚ => decide (b.2 ≤ a.2)) a b ||
        (fun a b : String × ℚ => decide (b.2 ≤ a.2)) b a) = true := by
    intro a b
    rcases le_total a.2 b.2 with h | h <;> simp [h]
  refine ⟨rfl, ?_, ?_, ?_, ?_⟩
  · show (((sortedBreakdown rs).take 5).map Prod.fst).length = _
    rw [List.length_map, List.length_take, sortedBreakdown, List.length_mergeSort,
      length_category_breakdown]
  · have hs := List.sorted_mergeSort htrans htotal (category_breakdown rs)
    exact hs.imp (fun hab => by simpa using hab)
  · exact List.mergeSort_perm _ _
  · intro p q hpq hsub
    exact List.pair_sublist_mergeSort htrans htotal
      (by simp [decide_eq_true_iff, hpq.symm.le]) hsub

theorem C7_witness :
    ((aggregate_user_monthly_data "u" 2025 7 "t" demo2).top_categories =
      ((sortedBreakdown demo2).take 5).map Prod.fst) ∧
    ((aggregate_user_monthly_data "u" 2025 7 "t" demo2).top_categories.length =
      min 5 (allSummaryCats demo2).dedup.length) ∧
    List.Pairwise (fun a b : String × ℚ => b.2 ≤ a.2) (sortedBreakdown demo2) ∧
    (sortedBreakdown demo2).Perm (category_breakdown demo2) ∧
    (∀ p q : String × ℚ, p.2 = q.2 → [p, q].Sublist (category_breakdown demo2) →
      [p, q].Sublist (sortedBreakdown demo2)) :=
  C7_top_categories "u" 2025 7 "t" demo2

/-- C1: for at least 2 receipts, the success-path result's `anomalies`
list flags exactly the receipts whose `total_spend` strictly exceeds
`mean_total + 2 * std_total`, with `mean_total` the arithmetic mean and
`std_total` the Bessel-corrected (N−1) sample standard deviation of all
totals: every listed entry satisfies the inequality and every receipt
satisfying it is listed. -/
theorem C1_two_sigma_rule (uid now : String) (rs : List Receipt) (h : 2 ≤ rs.length) :
    alistFind "anomalies" (detect_anomalies_for_user uid now rs) =
      some (AnomalyVal.vList (anomalyEntries rs)) ∧
    (∀ e ∈ anomalyEntries rs, sigmaThreshold rs < (e.total_spend : ℝ)) ∧
    (∀ r ∈ rs, sigmaThreshold rs < (total_spend r : ℝ) →
      anomalyEntry (category_avg rs) r ∈ anomalyEntries rs) := by
  have hv : 0 ≤ besselVar (rs.map total_spend) := besselVar_nonneg (by simpa using h)
  refine ⟨?_, ?_, ?_⟩
  · rw [detect_anomalies_for_user, if_neg (by simpa using Nat.not_lt.mpr h)]
    simp [alistFind]
  · intro e he
    simp only [anomalyEntries] at he
    rcases List.mem_map.mp he with ⟨r, hr, rfl⟩
    have hflag := (List.mem_filter.mp hr).2
    exact (twoSigma_iff_real hv).mp hflag
  · intro r hr hgt
    have hflag : twoSigmaFlag (total_spend r) (qmean (rs.map total_spend))
        (besselVar (rs.map total_spend)) = true := (twoSigma_iff_real hv).mpr hgt
    simp only [anomalyEntries]
    exact List.mem_map_of_mem _ (List.mem_filter.mpr ⟨hr, hflag⟩)

theorem C1_witness :
    alistFind "anomalies" (detect_anomalies_for_user "u" "t" demoA) =
      some (AnomalyVal.vList (anomalyEntries demoA)) ∧
    (∀ e ∈ anomalyEntries demoA, sigmaThreshold demoA < (e.total_spend : ℝ)) ∧
    (∀ r ∈ demoA, sigmaThreshold demoA < (total_spend r : ℝ) →
      anomalyEntry (category_avg demoA) r ∈ anomalyEntries demoA) :=
  C1_two_sigma_rule "u" "t" demoA (by decide)

/-- C6: inside a receipt flagged by the 2-sigma rule, an item is
listed as a category anomaly exactly when the pooled mean amount of
its raw category over all items of all receipts is strictly positive
and the item's amount strictly exceeds 1.5 times that mean; a category
with pooled mean 0 can never contribute a flagged item. -/
theorem C6_item_level_rule (rs : List Receipt) (r : Receipt) (hr : r ∈ rs)
    (hflag : twoSigmaFlag (total_spend r) (qmean (rs.map total_spend))
        (besselVar (rs.map total_spend)) = true) :
    anomalyEntry (category_avg rs) r ∈ anomalyEntries rs ∧
    (∀ ca ∈ (anomalyEntry (category_avg rs) r).category_anomalies,
      ∃ it ∈ r.items,
        ca = ⟨it.name, it.category, it.amount, round2 (qmean (amountsOf it.category rs))⟩ ∧
        0 < qmean (amountsOf it.category rs) ∧
        1.5 * qmean (amountsOf it.category rs) < it.amount) ∧
    (∀ it ∈ r.items,
      0 < qmean (amountsOf it.category rs) →
      1.5 * qmean (amountsOf it.category rs) < it.amount →
      (⟨it.name, it.category, it.amount,
          round2 (qmean (amountsOf it.category rs))⟩ : CategoryAnomaly)
        ∈ (anomalyEntry (category_avg rs) r).category_anomalies) := by
  refine ⟨?_, ?_, ?_⟩
  · simp only [anomalyEntries]
    exact List.mem_map_of_mem _ (List.mem_filter.mpr ⟨hr, hflag⟩)
  · intro ca hca
    have hrw : (anomalyEntry (category_avg rs) r).category_anomalies =
        categoryAnomaliesOf (category_avg rs) r := rfl
    rw [hrw, categoryAnomaliesOf] at hca
    rcases List.mem_filterMap.mp hca with ⟨it, hit, hsome⟩
    rw [catAvg_eq] at hsome
    by_cases hc : 0 < qmean (amountsOf it.category rs) ∧
        1.5 * qmean (amountsOf it.category rs) < it.amount
    · rw [if_pos hc] at hsome
      exact ⟨it, hit, (Option.some.inj hsome).symm, hc.1, hc.2⟩
    · rw [if_neg hc] at hsome
      cases hsome
  · intro it hit h1 h2
    have hrw : (anomalyEntry (category_avg rs) r).category_anomalies =
        categoryAnomaliesOf (category_avg rs) r := rfl
    rw [hrw, categoryAnomaliesOf]
    apply List.mem_filterMap.mpr
    refine ⟨it, hit, ?_⟩
    rw [catAvg_eq, if_pos ⟨h1, h2⟩]

theorem C6_witness :
    anomalyEntry (category_avg demoA) demoBig ∈ anomalyEntries demoA ∧
    (∀ ca ∈ (anomalyEntry (category_avg demoA) demoBig).category_anomalies,
      ∃ it ∈ demoBig.items,
        ca = ⟨it.name, it.category, it.amount, round2 (qmean (amountsOf it.category demoA))⟩ ∧
        0 < qmean (amountsOf it.category demoA) ∧
        1.5 * qmean (amountsOf it.category demoA) < it.amount) ∧
    (∀ it ∈ demoBig.items,
      0 < qmean (amountsOf it.category demoA) →
      1.5 * qmean (amountsOf it.category demoA) < it.amount →
      (⟨it.name, it.category, it.amount,
          round2 (qmean (amountsOf it.category demoA))⟩ : CategoryAnomaly)
        ∈ (anomalyEntry (category_avg demoA) demoBig).category_anomalies) :=
  C6_item_level_rule demoA demoBig (by decide)
    (by
      rw [twoSigmaFlag, Bool.and_eq_true, decide_eq_true_iff, decide_eq_true_iff]
      constructor <;> norm_num [demoA, demoBig, total_spend, qmean, besselVar])

/-- C4: an identity group is in the recurring output exactly when its
items occur in at least 2 distinct `YYYY-MM` months, and every output
entry's `months_appeared` is sorted ascending with length equal to the
group's number of distinct months (hence at least 2). -/
theorem C4_recurring_months (rs : List Receipt) :
    (∀ k : String × String,
      ((∃ e ∈ detect_recurring_expenses rs, e.name = k.1 ∧ e.category = k.2) ↔
        2 ≤ ((monthsOfKey k rs).dedup).length)) ∧
    (∀ e ∈ detect_recurring_expenses rs,
      List.Pairwise (· ≤ ·) e.months_appeared ∧
      e.months_appeared.length = ((monthsOfKey (e.name, e.category) rs).dedup).length ∧
      2 ≤ e.months_appeared.length) := by
  have hkeys := nodup_keys_tracker rs
  constructor
  · intro k
    constructor
    · rintro ⟨e, he, hn, hc⟩
      rw [detect_recurring_expenses] at he
      rcases List.mem_filterMap.mp he with ⟨kd, hkd, hsome⟩
      by_cases h2 : 2 ≤ kd.2.months.length
      case neg =>
        rw [if_neg h2] at hsome
        cases hsome
      rw [if_pos h2] at hsome
      have he2 := Option.some.inj hsome
      have hk : kd.1 = k := by
        have h1 : kd.1.1 = k.1 := by rw [← hn, ← he2]
        have h5 : kd.1.2 = k.2 := by rw [← hc, ← he2]
        exact Prod.ext h1 h5
      have hmem : (kd.1, kd.2) ∈ recurringTracker rs := by simpa using hkd
      have hfind : alistFind k (recurringTracker rs) = some kd.2 := by
        rw [← hk]
        exact alistFind_eq_some_of_mem hkeys hmem
      have hm := tracker_months_eq rs k
      rw [hfind] at hm
      have hm2 : kd.2.months = addAll [] (monthsOfKey k rs) := hm
      rw [hm2, length_addAll_nil] at h2
      exact h2
    · intro h2
      have hne : monthsOfKey k rs ≠ [] := by
        intro h0
        rw [h0] at h2
        simp at h2
      cases hfind : alistFind k (recurringTracker rs) with
      | none =>
        exfalso
        have hm := tracker_months_eq rs k
        rw [hfind] at hm
        have hm2 : ([] : List String) = addAll [] (monthsOfKey k rs) := hm
        exact hne ((addAll_nil_eq_nil_iff _).mp hm2.symm)
      | some d =>
        have hm := tracker_months_eq rs k
        rw [hfind] at hm
        have hm2 : d.months = addAll [] (monthsOfKey k rs) := hm
        have hlen : d.months.length = (monthsOfKey k rs).dedup.length := by
          rw [hm2, length_addAll_nil]
        have h2' : 2 ≤ d.months.length := by omega
        refine ⟨⟨k.1, k.2, d.months.mergeSort strLeB, round2 d.total_amount,
          round2 (d.total_amount / (d.occurrences : ℚ))⟩, ?_, rfl, rfl⟩
        rw [detect_recurring_expenses]
        apply List.mem_filterMap.mpr
        refine ⟨(k, d), mem_of_alistFind_eq_some hfind, ?_⟩
        rw [if_pos h2']
  · intro e he
    rw [detect_recurring_expenses] at he
    rcases List.mem_filterMap.mp he with ⟨kd, hkd, hsome⟩
    by_cases h2 : 2 ≤ kd.2.months.length
    case neg =>
      rw [if_neg h2] at hsome
      cases hsome
    rw [if_pos h2] at hsome
    have he2 := Option.some.inj hsome
    subst he2
    have hmem : (kd.1, kd.2) ∈ recurringTracker rs := by simpa using hkd
    have hfind : alistFind kd.1 (recurringTracker rs) = some kd.2 :=
      alistFind_eq_some_of_mem hkeys hmem
    have hm := tracker_months_eq rs kd.1
    rw [hfind] at hm
    have hm2 : kd.2.months = addAll [] (monthsOfKey kd.1 rs) := hm
    refine ⟨?_, ?_, ?_⟩
    · have hs := @List.sorted_mergeSort String strLeB strLeB_trans strLeB_total kd.2.months
      exact hs.imp (fun hab => (strLeB_iff_le _ _).mp hab)
    · show (kd.2.months.mergeSort strLeB).length = (monthsOfKey (kd.1.1, kd.1.2) rs).dedup.length
      rw [List.length_mergeSort, hm2, length_addAll_nil]
    · show 2 ≤ (kd.2.months.mergeSort strLeB).length
      rw [List.length_mergeSort]
      exact h2

theorem C4_witness :
    (∀ k : String × String,
      ((∃ e ∈ detect_recurring_expenses demo4, e.name = k.1 ∧ e.category = k.2) ↔
        2 ≤ ((monthsOfKey k demo4).dedup).length)) ∧
    (∀ e ∈ detect_recurring_expenses demo4,
      List.Pairwise (· ≤ ·) e.months_appeared ∧
      e.months_appeared.length = ((monthsOfKey (e.name, e.category) demo4).dedup).length ∧
      2 ≤ e.months_appeared.length) :=
  C4_recurring_months demo4

/-- C5 (counterexample): the items `("milk", "food", 4)` and
`("milk", "food ", 6)` have identical names and categories differing
only by a trailing space — the same normalized identity key — yet no
per-category group of the Anomaly Detector's pooling contains both of
their amounts: the claim that such items share a mean-amount group in
the Anomaly Detector is false. -/
theorem C5_counterexample :
    lowerStrip "food" = lowerStrip "food " ∧
    itemKey ⟨"milk", "food", 4⟩ = itemKey ⟨"milk", "food ", 6⟩ ∧
    ¬ ∃ p ∈ categorySpend [cexReceiptA, cexReceiptB], (4 : ℚ) ∈ p.2 ∧ (6 : ℚ) ∈ p.2 :=
  ⟨by decide, by decide, by decide⟩

/-- C5 (amended): the Recurring-Expense Detector groups occurrences by
the normalized key `(lowercased-stripped name, lowercased-stripped
category)`, so case/whitespace variants merge there; the Anomaly
Detector's per-category pooling instead groups by the *raw* category
string: for two single-item receipts the tracker has one group exactly
when the normalized keys coincide, while the category pool has one
group exactly when the raw category strings are equal. -/
theorem C5_grouping_keys (n1 c1 n2 c2 : String) (a1 a2 : ℚ) (t1 t2 : DateTime)
    (i1 i2 m1 m2 : String) :
    ((recurringTracker
        [⟨i1, t1, m1, [], [⟨n1, c1, a1⟩]⟩, ⟨i2, t2, m2, [], [⟨n2, c2, a2⟩]⟩]).map Prod.fst =
      if itemKey ⟨n1, c1, a1⟩ = itemKey ⟨n2, c2, a2⟩
      then [itemKey ⟨n1, c1, a1⟩]
      else [itemKey ⟨n1, c1, a1⟩, itemKey ⟨n2, c2, a2⟩]) ∧
    ((categorySpend
        [⟨i1, t1, m1, [], [⟨n1, c1, a1⟩]⟩, ⟨i2, t2, m2, [], [⟨n2, c2, a2⟩]⟩]).map Prod.fst =
      if c1 = c2 then [c1] else [c1, c2]) := by
  constructor
  · simp only [recurringTracker, List.foldl_cons, List.foldl_nil, trackItem, alistUpsert]
    by_cases h : itemKey ⟨n1, c1, a1⟩ = itemKey ⟨n2, c2, a2⟩ <;> simp [h]
  · simp only [categorySpend, List.foldl_cons, List.foldl_nil, alistUpsert]
    by_cases h : c1 = c2 <;> simp [h]

theorem C5_witness :
    ((recurringTracker [cexReceiptA, cexReceiptB]).map Prod.fst =
      if itemKey ⟨"milk", "food", 4⟩ = itemKey ⟨"milk", "food ", 6⟩
      then [itemKey ⟨"milk", "food", 4⟩]
      else [itemKey ⟨"milk", "food", 4⟩, itemKey ⟨"milk", "food ", 6⟩]) ∧
    ((categorySpend [cexReceiptA, cexReceiptB]).map Prod.fst =
      if ("food" : String) = "food " then ["food"] else ["food", "food "]) :=
  C5_grouping_keys "milk" "food" "milk" "food " 4 6
    ⟨2024, 1, 1, 8, 0, 0⟩ ⟨2024, 2, 1, 9, 0, 0⟩ "a" "b" "shop" "shop"
